import Mathlib

/-!
Verification of the new-item detection and rendering pipeline of
`fetch_limiteds.py` (with the shared `slugify` of `generate_posts.py`).

The module-level script is embedded as a pure function `runPipeline` over an
explicit world: the upstream fetch result, the content of `known_ids.json`,
the `_posts` directory, today's date, and a fault model for artifact writes.
Dates are modelled as proleptic-Gregorian `(year, month, day)` triples with
Python's `date.toordinal` arithmetic; JSON documents as an inductive value
type; the directory as an association list from filename to file content.
-/

/-- JSON values, as produced by Python's `json.load`. -/
inductive JsonV where
  | str (s : String)
  | num (n : Int)
  | bool (b : Bool)
  | null
  | arr (xs : List JsonV)
  | obj (fields : List (String × JsonV))

/-- The state of the `known_ids.json` file on disk: absent, present but not
valid JSON, or present and parsing to a JSON value. -/
inductive FileContent where
  | missing
  | invalid
  | parsed (j : JsonV)

/-- A proleptic Gregorian calendar date, as Python's `datetime.date`. -/
structure PDate where
  year : Nat
  month : Nat
  day : Nat
deriving DecidableEq

/-- Leap-year test (Python `calendar.isleap`). -/
def isLeap (y : Nat) : Bool :=
  (y % 4 == 0 && y % 100 != 0) || y % 400 == 0

/-- Number of days in month `m` of year `y`. -/
def daysInMonth (y m : Nat) : Nat :=
  if m == 2 then (if isLeap y then 29 else 28)
  else if m == 4 || m == 6 || m == 9 || m == 11 then 30
  else 31

/-- Days in year `y` before the first day of month `m`. -/
def daysBeforeMonth (y m : Nat) : Nat :=
  (List.range (m - 1)).foldl (fun a i => a + daysInMonth y (i + 1)) 0

/-- Python's `date.toordinal`: day number in the proleptic Gregorian
calendar, with 0001-01-01 being day 1.  Dates compare (and subtract) exactly
as their ordinals do, so the ordinal is the faithful carrier of Python's
date comparisons and `timedelta` arithmetic. -/
def PDate.toOrdinal (p : PDate) : Int :=
  365 * ((p.year : Int) - 1) + ((p.year : Int) - 1) / 4
    - ((p.year : Int) - 1) / 100 + ((p.year : Int) - 1) / 400
    + (daysBeforeMonth p.year p.month : Int) + (p.day : Int)

/-- Digits-only decimal reading of a character list. -/
def parseNat (cs : List Char) : Nat :=
  cs.foldl (fun a c => 10 * a + (c.toNat - '0'.toNat)) 0

/-- Python's `date.fromisoformat` on the canonical `YYYY-MM-DD` shape
(the only shape this tool ever writes): `none` models the `ValueError`
raised on any other input. -/
def isoParse (s : String) : Option PDate :=
  match s.data with
  | [y1, y2, y3, y4, h1, m1, m2, h2, d1, d2] =>
    if ([y1, y2, y3, y4, m1, m2, d1, d2].all Char.isDigit
        && h1 == '-' && h2 == '-') then
      let y := parseNat [y1, y2, y3, y4]
      let m := parseNat [m1, m2]
      let d := parseNat [d1, d2]
      if 1 ≤ y && 1 ≤ m && m ≤ 12 && 1 ≤ d && d ≤ daysInMonth y m then
        some ⟨y, m, d⟩
      else none
    else none
  | _ => none

/-- Left-pad a decimal rendering with zeros to width `w`. -/
def padNum (w n : Nat) : String :=
  String.mk (List.replicate (w - (toString n).length) '0') ++ toString n

/-- Python's `date.isoformat`: `YYYY-MM-DD`. -/
def isoFormat (p : PDate) : String :=
  padNum 4 p.year ++ "-" ++ padNum 2 p.month ++ "-" ++ padNum 2 p.day

/-- The characters Python's `str.strip` / regex `\s` treat as whitespace. -/
def pyWhitespace : List Char :=
  [' ', '\t', '\n', '\r', Char.ofNat 11, Char.ofNat 12,
   Char.ofNat 28, Char.ofNat 29, Char.ofNat 30, Char.ofNat 31,
   Char.ofNat 133, Char.ofNat 160, Char.ofNat 0x1680,
   Char.ofNat 0x2000, Char.ofNat 0x2001, Char.ofNat 0x2002,
   Char.ofNat 0x2003, Char.ofNat 0x2004, Char.ofNat 0x2005,
   Char.ofNat 0x2006, Char.ofNat 0x2007, Char.ofNat 0x2008,
   Char.ofNat 0x2009, Char.ofNat 0x200a, Char.ofNat 0x2028,
   Char.ofNat 0x2029, Char.ofNat 0x202f, Char.ofNat 0x205f,
   Char.ofNat 0x3000]

/-- Whitespace test used by `slugify`'s strip and collapse phases. -/
def isPyWs (c : Char) : Bool := pyWhitespace.contains c

/-- `str.strip()`: drop leading and trailing whitespace. -/
def pyStrip (cs : List Char) : List Char :=
  ((cs.dropWhile isPyWs).reverse.dropWhile isPyWs).reverse

/-- `re.sub(r'\s+', '-', s)`: each maximal whitespace run becomes one
hyphen.  The boolean records whether the previous character was part of a
whitespace run already replaced. -/
def collapseWs : Bool → List Char → List Char
  | _, [] => []
  | prevWs, c :: cs =>
    if isPyWs c then
      (if prevWs then [] else ['-']) ++ collapseWs true cs
    else c :: collapseWs false cs

/-- Characters the final filter of `slugify` keeps: `[a-z0-9-]`. -/
def slugAllowed (c : Char) : Bool :=
  ('a' ≤ c && c ≤ 'z') || ('0' ≤ c && c ≤ '9') || c == '-'

/-- `slugify` of `fetch_limiteds.py` lines 15-17 (identical in
`generate_posts.py` lines 10-12): strip, lowercase, collapse whitespace
runs to hyphens, drop everything outside `[a-z0-9-]`. -/
def slugify (name : String) : String :=
  String.mk (((collapseWs false ((pyStrip name.data).map Char.toLower))).filter slugAllowed)

/-- An upstream item tuple `[name, acronym, rap, value, ...]` restricted to
the fields the render loop unpacks (`name, _, rap, value, *_`). -/
structure ItemRec where
  name : String
  rap : Int
  value : Int
deriving DecidableEq

/-- How a run can abort (the script has no handler, so each raise kills
the process at that point). -/
inductive RunError where
  | fetchFailure
  | badKnownJson
  | badDate
  | itemMissing
  | renderFailure
deriving DecidableEq

/-- Observable side-effect events of one run, in order. -/
inductive Event where
  | fetchOk
  | saveKnown
  | removeFile (name : String)
  | mkdirPosts
  | writeFile (name : String)
deriving DecidableEq

/-- The apostrophe character, used by the title sanitizer. -/
def squote : Char := Char.ofNat 39

/-- `name.replace("'", "''")` of line 74: double every single quote. -/
def escapeQuotes (s : String) : String :=
  String.mk (s.data.foldr
    (fun c acc => if c == squote then squote :: squote :: acc else c :: acc) [])

/-- Lines 28-34: load `known_ids.json`.  A missing file yields the empty
mapping; a file that is not valid JSON raises `json.JSONDecodeError`
(modelled as `.error ()`); a parsed non-object is replaced by the empty
mapping; a parsed object becomes a Python dict (later duplicate keys
overwrite earlier ones, first-occurrence order kept). -/
def assocSet (m : List (String × JsonV)) (k : String) (v : JsonV) :
    List (String × JsonV) :=
  if m.any (fun p => p.1 == k) then
    m.map (fun p => if p.1 == k then (k, v) else p)
  else m ++ [(k, v)]

/-- Building a Python dict from a JSON object's field list. -/
def objToMap (fs : List (String × JsonV)) : List (String × JsonV) :=
  fs.foldl (fun acc p => assocSet acc p.1 p.2) []

def loadKnown : FileContent → Except Unit (List (String × JsonV))
  | .missing => .ok []
  | .invalid => .error ()
  | .parsed (.obj fs) => .ok (objToMap fs)
  | .parsed _ => .ok []

/-- Lines 39-41: every fetched id absent from the known mapping is
appended with today's ISO date; present ids are left untouched. -/
def reconcile (known : List (String × JsonV)) (ids : List String)
    (todayStr : String) : List (String × JsonV) :=
  ids.foldl
    (fun acc id =>
      if (List.lookup id acc).isSome then acc
      else acc ++ [(id, JsonV.str todayStr)])
    known

/-- Line 48: `cutoff = today - timedelta(days=windowDays)`, as an ordinal. -/
def cutoffOrd (today : PDate) (windowDays : Int) : Int :=
  today.toOrdinal - windowDays

/-- Lines 61-63 test, negated: the entry is rendered unless
`first_date < cutoff`. -/
def passesCutoff (co : Int) (d : PDate) : Bool :=
  !(d.toOrdinal < co)

/-- Lines 51-56: recreate the posts folder.  An existing directory keeps
only `.gitkeep` (removal events per deleted file); a missing directory is
created.  Returns the cleaned directory and the emitted events. -/
def cleanDir : Option (List (String × String)) →
    List (String × String) × List Event
  | some files =>
    (files.filter (fun p => p.1 == ".gitkeep"),
     (files.filter (fun p => p.1 != ".gitkeep")).map (fun p => .removeFile p.1))
  | none => ([], [.mkdirPosts])

/-- `open(path, "w")` + `write`: overwrite an existing name in place, else
append the new file. -/
def writeFile (dir : List (String × String)) (f c : String) :
    List (String × String) :=
  if dir.any (fun p => p.1 == f) then
    dir.map (fun p => if p.1 == f then (f, c) else p)
  else dir ++ [(f, c)]

/-- Lines 77-83: the rendered front-matter and body of one post. -/
def postContent (name dateStr : String) (rap value : Int) : String :=
  "---\n" ++ "title: " ++ String.singleton squote ++ escapeQuotes name
    ++ String.singleton squote ++ "\n"
    ++ "date: " ++ dateStr ++ "T00:00:00Z\n" ++ "---\n"
    ++ "- **RAP**: " ++ toString rap ++ "\n"
    ++ "- **Value**: " ++ toString value ++ "\n"

/-- Prefix an event onto a render-loop result. -/
def consEvent (ev : Event)
    (t : List (String × String) × Option RunError × List Event) :
    List (String × String) × Option RunError × List Event :=
  (t.1, t.2.1, ev :: t.2.2)

/-- Lines 59-87: the render loop over the reconciled known mapping.
Each entry's stored date is parsed (`ValueError`/`TypeError` aborts), the
cutoff test may `continue`, the unguarded `items[item_id]` lookup aborts
when the id is not in the fetch (`KeyError`), and a failing artifact write
aborts (`OSError`, per the `writeFails` fault model).  Returns the final
directory, the abort (if any) and the write events. -/
def renderLoop (items : List (String × ItemRec)) (co : Int)
    (writeFails : String → Bool) :
    List (String × JsonV) → List (String × String) →
    List (String × String) × Option RunError × List Event
  | [], dir => (dir, none, [])
  | (id, j) :: rest, dir =>
    match j with
    | .str s =>
      match isoParse s with
      | none => (dir, some .badDate, [])
      | some d =>
        if passesCutoff co d then
          match List.lookup id items with
          | none => (dir, some .itemMissing, [])
          | some it =>
            let fname := isoFormat d ++ "-" ++ slugify it.name ++ ".md"
            if writeFails fname then (dir, some .renderFailure, [])
            else
              consEvent (.writeFile fname)
                (renderLoop items co writeFails rest
                  (writeFile dir fname
                    (postContent it.name (isoFormat d) it.rap it.value)))
        else renderLoop items co writeFails rest dir
    | _ => (dir, some .badDate, [])

/-- The window constant of line 13. -/
def DAYS_BACK : Int := 7

/-- The outcome of one run: final `known_ids.json` content, final posts
directory (absent only if never created), abort (if any), event trace. -/
structure RunResult where
  knownOut : FileContent
  dirOut : Option (List (String × String))
  error : Option RunError
  trace : List Event

/-- The module-level pipeline of `fetch_limiteds.py` lines 19-89:
fetch (a failure raises before anything else) → load known set (invalid
JSON raises) → mark new ids with today → save the known set → recreate the
posts folder → render every known id within the window. -/
def runPipeline (fetch : Except Unit (List (String × ItemRec)))
    (kf : FileContent) (dir0 : Option (List (String × String)))
    (today : PDate) (writeFails : String → Bool) (windowDays : Int) :
    RunResult :=
  match fetch with
  | .error _ => ⟨kf, dir0, some .fetchFailure, []⟩
  | .ok items =>
    match loadKnown kf with
    | .error _ => ⟨kf, dir0, some .badKnownJson, [.fetchOk]⟩
    | .ok known =>
      let todayStr := isoFormat today
      let entries := reconcile known (items.map Prod.fst) todayStr
      let co := cutoffOrd today windowDays
      let cleaned := cleanDir dir0
      let r := renderLoop items co writeFails entries cleaned.1
      ⟨.parsed (.obj entries), some r.1, r.2.1,
       [.fetchOk, .saveKnown] ++ cleaned.2 ++ r.2.2⟩

/-- Character-list prefix test. -/
def startsWithCh : List Char → List Char → Bool
  | [], _ => true
  | _ :: _, [] => false
  | a :: as, b :: bs => a == b && startsWithCh as bs

/-- Character-list substring test. -/
def hasSub (needle : List Char) : List Char → Bool
  | [] => needle.isEmpty
  | b :: bs => startsWithCh needle (b :: bs) || hasSub needle bs

/-- Substring test on strings, for stating containment properties. -/
def strHas (hay needle : String) : Bool := hasSub needle.data hay.data

/-- Directory content with the keep-list placeholder erased, for stating
Mode A determinism. -/
def stripGK (l : List (String × String)) : List (String × String) :=
  l.filter (fun p => p.1 != ".gitkeep")

/-- True when a `saveKnown` event is followed (later in the trace) by some
`writeFile` event. -/
def savePrecedesWrite : List Event → Bool
  | [] => false
  | .saveKnown :: tl => tl.any (fun e => match e with
      | .writeFile _ => true
      | _ => false)
  | _ :: tl => savePrecedesWrite tl

/-- True when some `writeFile` event occurs before any `saveKnown` event. -/
def writePrecedesSave : List Event → Bool
  | [] => false
  | .writeFile _ :: _ => true
  | .saveKnown :: _ => false
  | _ :: tl => writePrecedesSave tl

/-- The filter decision of lines 60-63, applied entrywise: which ids of
the reconciled mapping are selected for rendering.  `none` models the
abort raised on an unparseable stored date. -/
def selectedForRender (windowDays : Int) (today : PDate) :
    List (String × JsonV) → Option (List String)
  | [] => some []
  | (id, j) :: rest =>
    match j with
    | .str s =>
      match isoParse s with
      | some d =>
        (selectedForRender windowDays today rest).map
          (fun tl => if passesCutoff (cutoffOrd today windowDays) d
                     then id :: tl else tl)
      | none => none
    | _ => none

/-! ### Helper lemmas -/

lemma lookup_append_some {β : Type} (k : String) (v : β)
    (l1 l2 : List (String × β)) (h : List.lookup k l1 = some v) :
    List.lookup k (l1 ++ l2) = some v := by
  induction l1 with
  | nil => simp [List.lookup] at h
  | cons p tl ih =>
    obtain ⟨a, b⟩ := p
    by_cases hk : (k == a) = true
    · simp only [List.lookup, hk, List.cons_append] at h ⊢
      exact h
    · simp only [Bool.not_eq_true] at hk
      simp only [List.lookup, hk, List.cons_append] at h ⊢
      exact ih h

lemma lookup_append_none {β : Type} (k : String)
    (l1 l2 : List (String × β)) (h : List.lookup k l1 = none) :
    List.lookup k (l1 ++ l2) = List.lookup k l2 := by
  induction l1 with
  | nil => simp
  | cons p tl ih =>
    obtain ⟨a, b⟩ := p
    by_cases hk : (k == a) = true
    · simp only [List.lookup, hk] at h
      exact Option.noConfusion h
    · simp only [Bool.not_eq_true] at hk
      simp only [List.lookup, hk, List.cons_append] at h ⊢
      exact ih h

lemma reconcile_keeps (ids : List String) :
    ∀ (known : List (String × JsonV)) (t : String) (id : String) (v : JsonV),
    List.lookup id known = some v →
    List.lookup id (reconcile known ids t) = some v := by
  induction ids with
  | nil => intro known t id v h; simpa [reconcile] using h
  | cons i tl ih =>
    intro known t id v h
    simp only [reconcile, List.foldl_cons] at *
    by_cases hi : (List.lookup i known).isSome
    · simpa [hi] using ih known t id v h
    · simp only [Bool.not_eq_true] at hi
      simp only [hi, Bool.false_eq_true, if_false]
      exact ih _ t id v (lookup_append_some id v known [(i, JsonV.str t)] h)

lemma reconcile_new (ids : List String) :
    ∀ (known : List (String × JsonV)) (t : String) (id : String),
    id ∈ ids → List.lookup id known = none →
    List.lookup id (reconcile known ids t) = some (JsonV.str t) := by
  induction ids with
  | nil => intro known t id h; simp at h
  | cons i tl ih =>
    intro known t id hmem hnone
    simp only [reconcile, List.foldl_cons] at *
    rcases List.mem_cons.mp hmem with rfl | htl
    · have hi : ¬ (List.lookup id known).isSome = true := by simp [hnone]
      simp only [Bool.not_eq_true] at hi
      simp only [hi, Bool.false_eq_true, if_false]
      have hlook : List.lookup id (known ++ [(id, JsonV.str t)])
          = some (JsonV.str t) := by
        rw [lookup_append_none id known _ hnone]
        simp [List.lookup]
      exact reconcile_keeps tl _ t id _ hlook
    · by_cases hi : (List.lookup i known).isSome
      · simpa [hi] using ih known t id htl hnone
      · simp only [Bool.not_eq_true] at hi
        simp only [hi, Bool.false_eq_true, if_false]
        by_cases hii : (id == i) = true
        · have : id = i := beq_iff_eq.mp hii
          subst this
          have hlook : List.lookup id (known ++ [(id, JsonV.str t)])
              = some (JsonV.str t) := by
            rw [lookup_append_none id known _ hnone]
            simp [List.lookup]
          exact reconcile_keeps tl _ t id _ hlook
        · have hnone2 : List.lookup id (known ++ [(i, JsonV.str t)]) = none := by
            rw [lookup_append_none id known _ hnone]
            simp only [Bool.not_eq_true] at hii
            simp [List.lookup, hii]
          exact ih _ t id htl hnone2

lemma ends_md_ne_gitkeep (x : String) : x ++ ".md" ≠ ".gitkeep" := by
  intro h
  have hd : (x ++ ".md").data.getLast? = (".gitkeep" : String).data.getLast? :=
    congrArg (fun s => s.data.getLast?) h
  rw [String.data_append] at hd
  rw [List.getLast?_append] at hd
  have h1 : ((".md" : String).data.getLast?).or x.data.getLast? = some 'd' := by
    rfl
  rw [h1] at hd
  exact absurd hd (by decide)

lemma writeFile_append_gk (gk m : List (String × String)) (f c : String)
    (hgk : ∀ p ∈ gk, p.1 = ".gitkeep") (hf : f ≠ ".gitkeep") :
    writeFile (gk ++ m) f c = gk ++ writeFile m f c := by
  have hany : gk.any (fun p => p.1 == f) = false := by
    rw [List.any_eq_false]
    intro p hp
    rw [hgk p hp]
    simp only [Bool.not_eq_true]
    exact beq_eq_false_iff_ne.mpr (fun h => hf h.symm)
  have hmapgk : gk.map (fun p => if p.1 == f then (f, c) else p) = gk := by
    have hcg : ∀ p ∈ gk, (if p.1 == f then (f, c) else p) = id p := by
      intro p hp
      have : (p.1 == f) = false := by
        rw [hgk p hp]
        exact beq_eq_false_iff_ne.mpr (fun h => hf h.symm)
      simp [this]
    rw [List.map_congr_left hcg, List.map_id]
  unfold writeFile
  rw [List.any_append, hany, Bool.false_or]
  by_cases hm : m.any (fun p => p.1 == f) = true
  · rw [if_pos hm, if_pos hm, List.map_append, hmapgk]
  · rw [if_neg hm, if_neg hm, List.append_assoc]

lemma cleanDir_allGK (d : Option (List (String × String))) :
    ∀ p ∈ (cleanDir d).1, p.1 = ".gitkeep" := by
  cases d with
  | none => simp [cleanDir]
  | some files =>
    intro p hp
    simp only [cleanDir] at hp
    exact beq_iff_eq.mp (List.mem_filter.mp hp).2

lemma renderLoop_split (items : List (String × ItemRec)) (co : Int)
    (wf : String → Bool) :
    ∀ (entries : List (String × JsonV)) (gk m : List (String × String)),
    (∀ p ∈ gk, p.1 = ".gitkeep") →
    renderLoop items co wf entries (gk ++ m)
      = (gk ++ (renderLoop items co wf entries m).1,
         (renderLoop items co wf entries m).2) := by
  intro entries
  induction entries with
  | nil => intro gk m hgk; simp [renderLoop]
  | cons p rest ih =>
    intro gk m hgk
    obtain ⟨id, j⟩ := p
    cases j with
    | str s =>
      cases hp : isoParse s with
      | none => simp [renderLoop, hp]
      | some d =>
        by_cases hpc : passesCutoff co d = true
        · cases hl : List.lookup id items with
          | none => simp [renderLoop, hp, hpc, hl]
          | some it =>
            by_cases hw : wf (isoFormat d ++ "-" ++ slugify it.name ++ ".md") = true
            · simp [renderLoop, hp, hpc, hl, hw]
            · have hne : (isoFormat d ++ "-" ++ slugify it.name ++ ".md")
                  ≠ ".gitkeep" := ends_md_ne_gitkeep _
              simp only [renderLoop, hp, hpc, hl, hw, if_true, Bool.false_eq_true,
                if_false]
              rw [writeFile_append_gk gk m _ _ hgk hne,
                ih gk (writeFile m _ _) hgk]
              simp [consEvent]
        · simp only [Bool.not_eq_true] at hpc
          simp [renderLoop, hp, hpc]
          exact ih gk m hgk
    | num n => simp [renderLoop]
    | bool b => simp [renderLoop]
    | null => simp [renderLoop]
    | arr xs => simp [renderLoop]
    | obj fs => simp [renderLoop]

lemma assocSet_not_mem (acc : List (String × JsonV)) (k : String) (v : JsonV)
    (hk : k ∉ acc.map Prod.fst) : assocSet acc k v = acc ++ [(k, v)] := by
  have : acc.any (fun p => p.1 == k) = false := by
    rw [List.any_eq_false]
    intro p hp
    simp only [Bool.not_eq_true]
    exact beq_eq_false_iff_ne.mpr
      (fun h => hk (h ▸ List.mem_map_of_mem Prod.fst hp))
  unfold assocSet
  rw [this]
  simp

lemma foldl_assocSet_nodup :
    ∀ (fs acc : List (String × JsonV)),
    (acc.map Prod.fst ++ fs.map Prod.fst).Nodup →
    fs.foldl (fun a p => assocSet a p.1 p.2) acc = acc ++ fs := by
  intro fs
  induction fs with
  | nil => intro acc h; simp
  | cons p tl ih =>
    intro acc h
    obtain ⟨k, v⟩ := p
    rw [List.foldl_cons]
    have hk : k ∉ acc.map Prod.fst := by
      rcases List.nodup_append.mp h with ⟨-, -, hdisj⟩
      intro hmem
      exact absurd (List.mem_cons_self k _) (hdisj hmem)
    rw [assocSet_not_mem acc k v hk]
    have h2 : ((acc ++ [(k, v)]).map Prod.fst ++ tl.map Prod.fst).Nodup := by
      rw [List.map_append, List.append_assoc]
      simpa using h
    rw [ih (acc ++ [(k, v)]) h2, List.append_assoc, List.singleton_append]

lemma objToMap_nodup (fs : List (String × JsonV))
    (h : (fs.map Prod.fst).Nodup) : objToMap fs = fs := by
  have := foldl_assocSet_nodup fs [] (by simpa using h)
  simpa [objToMap] using this

lemma renderLoop_error_none_iff (items : List (String × ItemRec)) (co : Int) :
    ∀ (entries : List (String × JsonV)) (dir : List (String × String)),
    (∀ p ∈ entries, ∃ s d, p.2 = JsonV.str s ∧ isoParse s = some d) →
    ((renderLoop items co (fun _ => false) entries dir).2.1 = none ↔
      ∀ id s d, (id, JsonV.str s) ∈ entries → isoParse s = some d →
        passesCutoff co d = true → (List.lookup id items).isSome = true) := by
  intro entries
  induction entries with
  | nil => intro dir h; simp [renderLoop]
  | cons p rest ih =>
    intro dir h
    obtain ⟨id0, j⟩ := p
    obtain ⟨s0, d0, hj, hp0⟩ := h (id0, j) (List.mem_cons_self _ _)
    have hj' : j = JsonV.str s0 := hj
    subst hj'
    have hrest : ∀ p ∈ rest, ∃ s d, p.2 = JsonV.str s ∧ isoParse s = some d :=
      fun p hp => h p (List.mem_cons_of_mem _ hp)
    by_cases hpc : passesCutoff co d0 = true
    · cases hl : List.lookup id0 items with
      | none =>
        constructor
        · intro habs
          exfalso
          simp [renderLoop, hp0, hpc, hl] at habs
        · intro hall
          exfalso
          have hsome := hall id0 s0 d0 (List.mem_cons_self _ _) hp0 hpc
          rw [hl] at hsome
          simp at hsome
      | some it =>
        have heq : (renderLoop items co (fun _ => false)
              ((id0, JsonV.str s0) :: rest) dir).2.1
            = (renderLoop items co (fun _ => false) rest
                (writeFile dir (isoFormat d0 ++ "-" ++ slugify it.name ++ ".md")
                  (postContent it.name (isoFormat d0) it.rap it.value))).2.1 := by
          simp [renderLoop, hp0, hpc, hl, consEvent]
        rw [heq, ih _ hrest]
        constructor
        · intro hall id s d hmem hp hpass
          rcases List.mem_cons.mp hmem with he | hm
          · injection he with h1 h2
            injection h2 with h3
            subst h1
            rw [hl]
            rfl
          · exact hall id s d hm hp hpass
        · intro hall id s d hmem hp hpass
          exact hall id s d (List.mem_cons_of_mem _ hmem) hp hpass
    · have heq : (renderLoop items co (fun _ => false)
              ((id0, JsonV.str s0) :: rest) dir).2.1
          = (renderLoop items co (fun _ => false) rest dir).2.1 := by
        simp only [Bool.not_eq_true] at hpc
        simp [renderLoop, hp0, hpc]
      rw [heq, ih dir hrest]
      constructor
      · intro hall id s d hmem hp hpass
        rcases List.mem_cons.mp hmem with he | hm
        · exfalso
          injection he with h1 h2
          injection h2 with h3
          subst h1
          subst h3
          rw [hp0] at hp
          injection hp with h4
          subst h4
          exact hpc hpass
        · exact hall id s d hm hp hpass
      · intro hall id s d hmem hp hpass
        exact hall id s d (List.mem_cons_of_mem _ hmem) hp hpass

lemma passesCutoff_iff (co : Int) (d : PDate) :
    passesCutoff co d = true ↔ co ≤ d.toOrdinal := by
  simp [passesCutoff, not_lt]

lemma selectedForRender_spec (w : Int) (today : PDate) :
    ∀ (entries : List (String × JsonV)),
    (∀ p ∈ entries, ∃ s d, p.2 = JsonV.str s ∧ isoParse s = some d) →
    ∃ sel, selectedForRender w today entries = some sel ∧
      ∀ id, id ∈ sel ↔ ∃ s d, (id, JsonV.str s) ∈ entries ∧
        isoParse s = some d ∧ cutoffOrd today w ≤ d.toOrdinal := by
  intro entries
  induction entries with
  | nil =>
    intro h
    exact ⟨[], rfl, by simp⟩
  | cons p rest ih =>
    intro h
    obtain ⟨id0, j⟩ := p
    obtain ⟨s0, d0, hj, hp0⟩ := h (id0, j) (List.mem_cons_self _ _)
    have hj' : j = JsonV.str s0 := hj
    subst hj'
    obtain ⟨sel, hsel, hiff⟩ := ih (fun p hp => h p (List.mem_cons_of_mem _ hp))
    by_cases hpc : passesCutoff (cutoffOrd today w) d0 = true
    · refine ⟨id0 :: sel, ?_, ?_⟩
      · simp [selectedForRender, hp0, hsel, hpc]
      · intro id
        constructor
        · intro hmem
          rcases List.mem_cons.mp hmem with rfl | hm
          · exact ⟨s0, d0, List.mem_cons_self _ _, hp0,
              (passesCutoff_iff _ _).mp hpc⟩
          · obtain ⟨s, d, hm2, hp2, hle⟩ := (hiff id).mp hm
            exact ⟨s, d, List.mem_cons_of_mem _ hm2, hp2, hle⟩
        · rintro ⟨s, d, hmem2, hp2, hle⟩
          rcases List.mem_cons.mp hmem2 with he | hm
          · injection he with h1 h2
            subst h1
            exact List.mem_cons_self _ _
          · exact List.mem_cons_of_mem _ ((hiff id).mpr ⟨s, d, hm, hp2, hle⟩)
    · have hpcf : passesCutoff (cutoffOrd today w) d0 = false := by
        simp only [Bool.not_eq_true] at hpc
        exact hpc
      refine ⟨sel, ?_, ?_⟩
      · simp [selectedForRender, hp0, hsel, hpcf]
      · intro id
        rw [hiff id]
        constructor
        · rintro ⟨s, d, hm, hp2, hle⟩
          exact ⟨s, d, List.mem_cons_of_mem _ hm, hp2, hle⟩
        · rintro ⟨s, d, hmem2, hp2, hle⟩
          rcases List.mem_cons.mp hmem2 with he | hm
          · exfalso
            injection he with h1 h2
            injection h2 with h3
            subst h3
            rw [hp0] at hp2
            injection hp2 with h4
            subst h4
            exact hpc ((passesCutoff_iff _ _).mpr hle)
          · exact ⟨s, d, hm, hp2, hle⟩

/-! ### Claim theorems -/

/-- Claim C1 (confirmed): starting from an empty known-set, with
windowDays = 7 (`DAYS_BACK`) and today = 2024-01-10, when the upstream
fetch returns exactly one item with id "100", name "Red Hat", rap 50 and
value 60, the persisted known-set afterwards maps "100" to "2024-01-10",
exactly one artifact named `2024-01-10-red-hat.md` is written, its content
contains the title `Red Hat`, the date `2024-01-10T00:00:00Z`, RAP 50 and
Value 60, and the run completes without error. -/
theorem end_to_end_red_hat :
    (runPipeline (.ok [("100", ⟨"Red Hat", 50, 60⟩)]) .missing (some [])
        ⟨2024, 1, 10⟩ (fun _ => false) DAYS_BACK).knownOut
      = .parsed (.obj [("100", JsonV.str "2024-01-10")]) ∧
    (∃ c, (runPipeline (.ok [("100", ⟨"Red Hat", 50, 60⟩)]) .missing (some [])
        ⟨2024, 1, 10⟩ (fun _ => false) DAYS_BACK).dirOut
        = some [("2024-01-10-red-hat.md", c)] ∧
      strHas c "Red Hat" = true ∧
      strHas c "date: 2024-01-10T00:00:00Z" = true ∧
      strHas c "- **RAP**: 50" = true ∧
      strHas c "- **Value**: 60" = true) ∧
    (runPipeline (.ok [("100", ⟨"Red Hat", 50, 60⟩)]) .missing (some [])
        ⟨2024, 1, 10⟩ (fun _ => false) DAYS_BACK).error = none :=
  ⟨rfl, ⟨postContent "Red Hat" "2024-01-10" 50 60, rfl, by decide, by decide,
    by decide, by decide⟩, by decide⟩

/-- Claim C2 counterexample: the claim says loading never raises (invalid
JSON yields an empty mapping) and that an array-of-ids payload is accepted
with its entries preserved.  On the code, a file whose bytes are not valid
JSON raises `json.JSONDecodeError` (there is no try/except around
`json.load`), and an array payload fails the `isinstance(known, dict)`
test, so its entries are discarded and replaced by the empty mapping. -/
theorem loadKnown_claim_counterexample :
    loadKnown .invalid = .error () ∧
    loadKnown (.parsed (.arr [JsonV.str "100"])) = .ok [] :=
  ⟨rfl, rfl⟩

/-- Claim C2 (corrected): loading the known-set tolerates a missing file
(empty mapping) and any payload that parses to a non-object — a JSON
string, an array (entries NOT preserved), a number, a boolean or null all
yield the empty mapping — but a file whose bytes are not valid JSON raises
and aborts the run; only the object-mapping shape is accepted with its
entries preserved. -/
theorem loadKnown_amended :
    loadKnown .missing = .ok [] ∧
    loadKnown .invalid = .error () ∧
    (∀ s, loadKnown (.parsed (.str s)) = .ok []) ∧
    (∀ xs, loadKnown (.parsed (.arr xs)) = .ok []) ∧
    (∀ n, loadKnown (.parsed (.num n)) = .ok []) ∧
    (∀ b, loadKnown (.parsed (.bool b)) = .ok []) ∧
    loadKnown (.parsed .null) = .ok [] ∧
    (∀ fs, (fs.map Prod.fst).Nodup → loadKnown (.parsed (.obj fs)) = .ok fs) := by
  refine ⟨rfl, rfl, fun s => rfl, fun xs => rfl, fun n => rfl, fun b => rfl,
    rfl, fun fs h => ?_⟩
  show Except.ok (objToMap fs) = Except.ok fs
  rw [objToMap_nodup fs h]

/-- Witness for `loadKnown_amended` at a concrete one-entry object. -/
theorem loadKnown_amended_witness :
    ([("a", JsonV.str "2024-01-01")].map Prod.fst).Nodup ∧
    loadKnown (.parsed (.obj [("a", JsonV.str "2024-01-01")]))
      = .ok [("a", JsonV.str "2024-01-01")] := by
  have h : ([("a", JsonV.str "2024-01-01")].map Prod.fst).Nodup := by simp
  exact ⟨h, loadKnown_amended.2.2.2.2.2.2.2 _ h⟩

/-- Claim C6 (confirmed): if the upstream fetch fails (network error or
non-2xx status, i.e. `requests.get` or `raise_for_status` raises), the run
aborts before any persistence: the known-set file and the posts directory
are exactly as before the run, no event has been emitted, and the error is
the fetch failure. -/
theorem fetch_failure_atomic (e : Unit) (kf : FileContent)
    (d0 : Option (List (String × String))) (today : PDate)
    (wf : String → Bool) (w : Int) :
    runPipeline (.error e) kf d0 today wf w
      = ⟨kf, d0, some .fetchFailure, []⟩ := rfl

/-- Claim C7 counterexample: in a concrete successful run the trace
contains the `saveKnown` event strictly before a `writeFile` event, so the
known-set write DOES precede artifact rendering, contradicting the claimed
load → fetch → reconcile → render → persist order. -/
theorem save_before_render_counterexample :
    savePrecedesWrite (runPipeline (.ok [("1", ⟨"Cap", 2, 3⟩)]) .missing
      (some []) ⟨2024, 2, 5⟩ (fun _ => false) DAYS_BACK).trace = true ∧
    (runPipeline (.ok [("1", ⟨"Cap", 2, 3⟩)]) .missing
      (some []) ⟨2024, 2, 5⟩ (fun _ => false) DAYS_BACK).error = none :=
  ⟨by decide, by decide⟩

/-- Claim C7 (corrected): the pipeline persists the updated known-set
BEFORE rendering (load → fetch → reconcile → persist → clean directory →
render), so in every run no `writeFile` event ever precedes the
`saveKnown` event; a crash between the two steps leaves the known-set
updated but artifacts not yet rendered (the opposite of the claimed
order). -/
theorem save_precedes_render (fetch : Except Unit (List (String × ItemRec)))
    (kf : FileContent) (d0 : Option (List (String × String)))
    (today : PDate) (wf : String → Bool) (w : Int) :
    writePrecedesSave (runPipeline fetch kf d0 today wf w).trace = false := by
  cases fetch with
  | error e => rfl
  | ok items =>
    cases hk : loadKnown kf with
    | error e => simp [runPipeline, hk, writePrecedesSave]
    | ok known => simp [runPipeline, hk, writePrecedesSave]

/-- A whitespace character never survives the slug filter. -/
lemma ws_not_allowed (c : Char) (h : isPyWs c = true) :
    slugAllowed c = false := by
  have h2 : List.elem c pyWhitespace = true := h
  have hmem : c ∈ pyWhitespace := List.elem_iff.mp h2
  fin_cases hmem <;> decide

/-- Claim C8 (confirmed): every character of a slug is a lowercase ASCII
letter, a digit or a hyphen; consequently a slug never contains `/`, a
double quote, a single quote, or whitespace; and
`slugify "Dominus Empyreus!" = "dominus-empyreus"`,
`slugify "  Multi   Space  " = "multi-space"`. -/
theorem slugify_spec :
    (∀ s : String, ∀ c ∈ (slugify s).data, slugAllowed c = true) ∧
    (∀ s : String, ∀ c ∈ (slugify s).data,
      c ≠ '/' ∧ c ≠ Char.ofNat 34 ∧ c ≠ squote ∧ isPyWs c = false) ∧
    slugify "Dominus Empyreus!" = "dominus-empyreus" ∧
    slugify "  Multi   Space  " = "multi-space" := by
  have hallowed : ∀ s : String, ∀ c ∈ (slugify s).data, slugAllowed c = true := by
    intro s c hc
    have hc2 : c ∈ List.filter slugAllowed
        (collapseWs false ((pyStrip s.data).map Char.toLower)) := hc
    exact (List.mem_filter.mp hc2).2
  refine ⟨hallowed, ?_, by decide, by decide⟩
  intro s c hc
  have ha := hallowed s c hc
  refine ⟨fun he => ?_, fun he => ?_, fun he => ?_, ?_⟩
  · rw [he] at ha
    exact absurd ha (by decide)
  · rw [he] at ha
    exact absurd ha (by decide)
  · rw [he] at ha
    exact absurd ha (by decide)
  · cases hq : isPyWs c with
    | false => rfl
    | true =>
      rw [ws_not_allowed c hq] at ha
      exact Bool.noConfusion ha

/-- Witness for `slugify_spec` at a concrete slug character. -/
theorem slugify_spec_witness :
    ('r' ∈ (slugify "Red Hat").data) ∧ slugAllowed 'r' = true := by
  have h : 'r' ∈ (slugify "Red Hat").data := by decide
  exact ⟨h, slugify_spec.1 "Red Hat" 'r' h⟩

lemma stripGK_append (a b : List (String × String)) :
    stripGK (a ++ b) = stripGK a ++ stripGK b :=
  List.filter_append a b

/-- Claim C3 (confirmed): the mapping saved at the end of every run is the
reconciliation of the loaded mapping with the fetched ids: it agrees with
the loaded mapping on every id already present (firstSeenDate is never
updated), keeps every loaded entry (nothing is pruned), and maps each
fetched id not previously present to today's ISO date, so the key set
grows monotonically across runs. -/
theorem known_set_invariant (items : List (String × ItemRec))
    (kf : FileContent) (d0 : Option (List (String × String)))
    (today : PDate) (wf : String → Bool) (w : Int)
    (known : List (String × JsonV)) (h : loadKnown kf = .ok known) :
    (runPipeline (.ok items) kf d0 today wf w).knownOut
      = .parsed (.obj (reconcile known (items.map Prod.fst) (isoFormat today))) ∧
    (∀ id v, List.lookup id known = some v →
      List.lookup id (reconcile known (items.map Prod.fst) (isoFormat today))
        = some v) ∧
    (∀ id, id ∈ items.map Prod.fst → List.lookup id known = none →
      List.lookup id (reconcile known (items.map Prod.fst) (isoFormat today))
        = some (JsonV.str (isoFormat today))) := by
  refine ⟨?_, ?_, ?_⟩
  · simp [runPipeline, h]
  · intro id v hv
    exact reconcile_keeps _ known _ id v hv
  · intro id hid hnone
    exact reconcile_new _ known _ id hid hnone

/-- Witness for `known_set_invariant`: one fetched item, empty known-set. -/
theorem known_set_invariant_witness :
    loadKnown .missing = .ok [] ∧
    ((runPipeline (.ok [("7", ⟨"Nn", 1, 2⟩)]) .missing (some [])
        ⟨2024, 1, 10⟩ (fun _ => false) 7).knownOut
      = .parsed (.obj (reconcile []
          ([("7", (⟨"Nn", 1, 2⟩ : ItemRec))].map Prod.fst)
          (isoFormat ⟨2024, 1, 10⟩))) ∧
    (∀ id v, List.lookup id ([] : List (String × JsonV)) = some v →
      List.lookup id (reconcile []
          ([("7", (⟨"Nn", 1, 2⟩ : ItemRec))].map Prod.fst)
          (isoFormat ⟨2024, 1, 10⟩)) = some v) ∧
    (∀ id, id ∈ [("7", (⟨"Nn", 1, 2⟩ : ItemRec))].map Prod.fst →
      List.lookup id ([] : List (String × JsonV)) = none →
      List.lookup id (reconcile []
          ([("7", (⟨"Nn", 1, 2⟩ : ItemRec))].map Prod.fst)
          (isoFormat ⟨2024, 1, 10⟩))
        = some (JsonV.str (isoFormat ⟨2024, 1, 10⟩)))) :=
  ⟨rfl, known_set_invariant [("7", ⟨"Nn", 1, 2⟩)] .missing (some [])
    ⟨2024, 1, 10⟩ (fun _ => false) 7 [] rfl⟩

/-- Claim C4 (confirmed): Mode A determinism.  For any two runs with a
successful fetch, the same fetched items, the same (loadable) known-set
file and the same today, the final posts-directory content apart from the
`.gitkeep` placeholder is identical, regardless of what files were in the
directory before each run (even whether it existed). -/
theorem modeA_determinism (items : List (String × ItemRec))
    (kf : FileContent) (d1 d2 : Option (List (String × String)))
    (today : PDate) (wf : String → Bool) (w : Int)
    (hkf : kf ≠ .invalid) :
    ((runPipeline (.ok items) kf d1 today wf w).dirOut).map stripGK
      = ((runPipeline (.ok items) kf d2 today wf w).dirOut).map stripGK := by
  obtain ⟨known, hk⟩ : ∃ known, loadKnown kf = .ok known := by
    cases kf with
    | missing => exact ⟨[], rfl⟩
    | invalid => exact absurd rfl hkf
    | parsed j => cases j <;> exact ⟨_, rfl⟩
  have key : ∀ d : Option (List (String × String)),
      ((runPipeline (.ok items) kf d today wf w).dirOut).map stripGK
        = some (stripGK ((renderLoop items (cutoffOrd today w) wf
            (reconcile known (items.map Prod.fst) (isoFormat today)) []).1)) := by
    intro d
    have hgk := cleanDir_allGK d
    have hsplit := renderLoop_split items (cutoffOrd today w) wf
      (reconcile known (items.map Prod.fst) (isoFormat today))
      ((cleanDir d).1) [] hgk
    rw [List.append_nil] at hsplit
    have hnil : stripGK ((cleanDir d).1) = [] := by
      rw [stripGK, List.filter_eq_nil_iff]
      intro p hp
      simp [hgk p hp]
    simp only [runPipeline, hk]
    rw [hsplit]
    rw [Option.map_some', stripGK_append, hnil, List.nil_append]
  rw [key d1, key d2]

/-- Witness for `modeA_determinism`: a stale directory versus a missing
directory. -/
theorem modeA_determinism_witness :
    (FileContent.missing ≠ FileContent.invalid) ∧
    ((runPipeline (.ok [("1", ⟨"Aa", 1, 2⟩)]) .missing
        (some [(".gitkeep", "k"), ("old.md", "x")])
        ⟨2024, 1, 10⟩ (fun _ => false) 7).dirOut).map stripGK
      = ((runPipeline (.ok [("1", ⟨"Aa", 1, 2⟩)]) .missing none
        ⟨2024, 1, 10⟩ (fun _ => false) 7).dirOut).map stripGK := by
  have h : FileContent.missing ≠ FileContent.invalid :=
    fun hh => FileContent.noConfusion hh
  exact ⟨h, modeA_determinism _ _ _ _ _ _ _ h⟩

/-- Claim C5 (confirmed): the cutoff filter has an inclusive lower bound.
When every stored date parses, the selection succeeds and contains exactly
the ids with an entry whose date `d` satisfies
`cutoff = today - windowDays ≤ d`; in particular a date equal to
`today - windowDays` is selected and an id all of whose dates are at most
`today - windowDays - 1` is not. -/
theorem recency_boundary (w : Int) (today : PDate)
    (entries : List (String × JsonV))
    (h : ∀ p ∈ entries, ∃ s d, p.2 = JsonV.str s ∧ isoParse s = some d) :
    ∃ sel, selectedForRender w today entries = some sel ∧
      (∀ id, id ∈ sel ↔ ∃ s d, (id, JsonV.str s) ∈ entries ∧
        isoParse s = some d ∧ cutoffOrd today w ≤ d.toOrdinal) ∧
      (∀ id s d, (id, JsonV.str s) ∈ entries → isoParse s = some d →
        d.toOrdinal = today.toOrdinal - w → id ∈ sel) ∧
      (∀ id, (∀ s d, (id, JsonV.str s) ∈ entries → isoParse s = some d →
        d.toOrdinal ≤ today.toOrdinal - w - 1) → id ∉ sel) := by
  obtain ⟨sel, hsel, hiff⟩ := selectedForRender_spec w today entries h
  refine ⟨sel, hsel, hiff, ?_, ?_⟩
  · intro id s d hmem hp heq
    refine (hiff id).mpr ⟨s, d, hmem, hp, ?_⟩
    rw [cutoffOrd]
    omega
  · intro id hall hmem
    obtain ⟨s, d, hm, hp, hle⟩ := (hiff id).mp hmem
    have hub := hall s d hm hp
    rw [cutoffOrd] at hle
    omega

/-- Witness for `recency_boundary`: dates exactly at and one day below the
cutoff for windowDays = 7, today = 2024-01-10. -/
theorem recency_boundary_witness :
    (∀ p ∈ [("a", JsonV.str "2024-01-03"), ("b", JsonV.str "2024-01-02")],
      ∃ s d, p.2 = JsonV.str s ∧ isoParse s = some d) ∧
    (∃ sel, selectedForRender 7 ⟨2024, 1, 10⟩
        [("a", JsonV.str "2024-01-03"), ("b", JsonV.str "2024-01-02")]
        = some sel ∧
      (∀ id, id ∈ sel ↔ ∃ s d,
        (id, JsonV.str s) ∈ [("a", JsonV.str "2024-01-03"),
          ("b", JsonV.str "2024-01-02")] ∧
        isoParse s = some d ∧ cutoffOrd ⟨2024, 1, 10⟩ 7 ≤ d.toOrdinal) ∧
      (∀ id s d, (id, JsonV.str s) ∈ [("a", JsonV.str "2024-01-03"),
          ("b", JsonV.str "2024-01-02")] → isoParse s = some d →
        d.toOrdinal = (⟨2024, 1, 10⟩ : PDate).toOrdinal - 7 → id ∈ sel) ∧
      (∀ id, (∀ s d, (id, JsonV.str s) ∈ [("a", JsonV.str "2024-01-03"),
          ("b", JsonV.str "2024-01-02")] → isoParse s = some d →
        d.toOrdinal ≤ (⟨2024, 1, 10⟩ : PDate).toOrdinal - 7 - 1) →
        id ∉ sel)) := by
  have h : ∀ p ∈ [("a", JsonV.str "2024-01-03"), ("b", JsonV.str "2024-01-02")],
      ∃ s d, p.2 = JsonV.str s ∧ isoParse s = some d := by
    intro p hp
    rcases List.mem_cons.mp hp with rfl | hp2
    · exact ⟨"2024-01-03", ⟨2024, 1, 3⟩, rfl, by decide⟩
    rcases List.mem_cons.mp hp2 with rfl | hp3
    · exact ⟨"2024-01-02", ⟨2024, 1, 2⟩, rfl, by decide⟩
    exact absurd hp3 (List.not_mem_nil p)
  exact ⟨h, recency_boundary 7 ⟨2024, 1, 10⟩ _ h⟩

/-- Claim C9 counterexample: with two qualifying items and an I/O fault on
the first artifact write, the run aborts with a render failure and the
second item — although it qualifies (its date is today itself) — is never
rendered: the directory stays empty.  The item is not skipped and the run
does not continue. -/
theorem render_failure_not_isolated :
    (runPipeline (.ok [("1", ⟨"Aa", 1, 2⟩), ("2", ⟨"Bb", 3, 4⟩)]) .missing
      (some []) ⟨2024, 3, 10⟩ (fun fn => fn == "2024-03-10-aa.md")
      DAYS_BACK).error = some .renderFailure ∧
    (runPipeline (.ok [("1", ⟨"Aa", 1, 2⟩), ("2", ⟨"Bb", 3, 4⟩)]) .missing
      (some []) ⟨2024, 3, 10⟩ (fun fn => fn == "2024-03-10-aa.md")
      DAYS_BACK).dirOut = some [] ∧
    passesCutoff (cutoffOrd ⟨2024, 3, 10⟩ DAYS_BACK) ⟨2024, 3, 10⟩ = true :=
  ⟨by decide, by decide, by decide⟩

/-- Claim C9 (corrected): an I/O failure writing one artifact aborts the
run at that item (there is no try/except around the write): the error is
raised, no later entry is rendered, and the directory — the artifacts
already written — is left as it was just before the failing write. -/
theorem render_failure_aborts (items : List (String × ItemRec)) (co : Int)
    (wf : String → Bool) (id s : String) (d : PDate) (it : ItemRec)
    (rest : List (String × JsonV)) (dir : List (String × String))
    (hp : isoParse s = some d) (hc : passesCutoff co d = true)
    (hl : List.lookup id items = some it)
    (hw : wf (isoFormat d ++ "-" ++ slugify it.name ++ ".md") = true) :
    renderLoop items co wf ((id, JsonV.str s) :: rest) dir
      = (dir, some .renderFailure, []) := by
  simp [renderLoop, hp, hc, hl, hw]

/-- Witness for `render_failure_aborts` at a concrete failing write. -/
theorem render_failure_aborts_witness :
    (isoParse "2024-03-10" = some ⟨2024, 3, 10⟩ ∧
     passesCutoff (cutoffOrd ⟨2024, 3, 10⟩ 7) ⟨2024, 3, 10⟩ = true ∧
     List.lookup "1" [("1", (⟨"Aa", 1, 2⟩ : ItemRec))] = some ⟨"Aa", 1, 2⟩ ∧
     (fun fn => fn == "2024-03-10-aa.md")
       (isoFormat ⟨2024, 3, 10⟩ ++ "-" ++ slugify "Aa" ++ ".md") = true) ∧
    renderLoop [("1", ⟨"Aa", 1, 2⟩)] (cutoffOrd ⟨2024, 3, 10⟩ 7)
      (fun fn => fn == "2024-03-10-aa.md")
      [("1", JsonV.str "2024-03-10"), ("x", JsonV.null)] [("prev.md", "c")]
      = ([("prev.md", "c")], some .renderFailure, []) := by
  refine ⟨⟨by decide, by decide, by decide, by decide⟩, ?_⟩
  exact render_failure_aborts [("1", ⟨"Aa", 1, 2⟩)] (cutoffOrd ⟨2024, 3, 10⟩ 7)
    (fun fn => fn == "2024-03-10-aa.md") "1" "2024-03-10" ⟨2024, 3, 10⟩
    ⟨"Aa", 1, 2⟩ [("x", JsonV.null)] [("prev.md", "c")]
    (by decide) (by decide) (by decide) (by decide)

/-- Claim C10 (confirmed): the render loop's `items[item_id]` lookup is
unguarded, so (absent write faults, with every stored date parseable) the
run completes without error exactly when every reconciled known id whose
date passes the cutoff is present in the freshly fetched items; whenever
some within-window known id is missing from the fetch, the lookup raises
and the whole run aborts. -/
theorem unguarded_item_lookup (items : List (String × ItemRec))
    (m : List (String × JsonV)) (d0 : Option (List (String × String)))
    (today : PDate) (w : Int)
    (h : ∀ p ∈ reconcile (objToMap m) (items.map Prod.fst) (isoFormat today),
      ∃ s d, p.2 = JsonV.str s ∧ isoParse s = some d) :
    ((runPipeline (.ok items) (.parsed (.obj m)) d0 today
        (fun _ => false) w).error = none) ↔
      (∀ id s d, (id, JsonV.str s) ∈ reconcile (objToMap m)
          (items.map Prod.fst) (isoFormat today) → isoParse s = some d →
        passesCutoff (cutoffOrd today w) d = true →
        (List.lookup id items).isSome = true) := by
  have hiff := renderLoop_error_none_iff items (cutoffOrd today w)
    (reconcile (objToMap m) (items.map Prod.fst) (isoFormat today))
    ((cleanDir d0).1) h
  have herr : (runPipeline (.ok items) (.parsed (.obj m)) d0 today
      (fun _ => false) w).error
      = (renderLoop items (cutoffOrd today w) (fun _ => false)
          (reconcile (objToMap m) (items.map Prod.fst) (isoFormat today))
          ((cleanDir d0).1)).2.1 := by
    simp [runPipeline, loadKnown]
  rw [herr]
  exact hiff

/-- Witness for `unguarded_item_lookup`: a within-window known id "5"
missing from the fetch, alongside the newly fetched id "9". -/
theorem unguarded_item_lookup_witness :
    (∀ p ∈ reconcile (objToMap [("5", JsonV.str "2024-01-09")])
        ([("9", (⟨"Zz", 1, 1⟩ : ItemRec))].map Prod.fst)
        (isoFormat ⟨2024, 1, 10⟩),
      ∃ s d, p.2 = JsonV.str s ∧ isoParse s = some d) ∧
    (((runPipeline (.ok [("9", ⟨"Zz", 1, 1⟩)])
        (.parsed (.obj [("5", JsonV.str "2024-01-09")])) (some [])
        ⟨2024, 1, 10⟩ (fun _ => false) 7).error = none) ↔
      (∀ id s d, (id, JsonV.str s) ∈ reconcile
          (objToMap [("5", JsonV.str "2024-01-09")])
          ([("9", (⟨"Zz", 1, 1⟩ : ItemRec))].map Prod.fst)
          (isoFormat ⟨2024, 1, 10⟩) → isoParse s = some d →
        passesCutoff (cutoffOrd ⟨2024, 1, 10⟩ 7) d = true →
        (List.lookup id [("9", (⟨"Zz", 1, 1⟩ : ItemRec))]).isSome = true)) := by
  have he : reconcile (objToMap [("5", JsonV.str "2024-01-09")])
      ([("9", (⟨"Zz", 1, 1⟩ : ItemRec))].map Prod.fst)
      (isoFormat ⟨2024, 1, 10⟩)
      = [("5", JsonV.str "2024-01-09"), ("9", JsonV.str "2024-01-10")] := rfl
  have h : ∀ p ∈ reconcile (objToMap [("5", JsonV.str "2024-01-09")])
      ([("9", (⟨"Zz", 1, 1⟩ : ItemRec))].map Prod.fst)
      (isoFormat ⟨2024, 1, 10⟩),
      ∃ s d, p.2 = JsonV.str s ∧ isoParse s = some d := by
    rw [he]
    intro p hp
    rcases List.mem_cons.mp hp with rfl | hp2
    · exact ⟨"2024-01-09", ⟨2024, 1, 9⟩, rfl, by decide⟩
    rcases List.mem_cons.mp hp2 with rfl | hp3
    · exact ⟨"2024-01-10", ⟨2024, 1, 10⟩, rfl, by decide⟩
    exact absurd hp3 (List.not_mem_nil p)
  exact ⟨h, unguarded_item_lookup [("9", ⟨"Zz", 1, 1⟩)]
    [("5", JsonV.str "2024-01-09")] (some []) ⟨2024, 1, 10⟩ 7 h⟩
